import Mathlib

/-!
# SmartCharge server: status service and vehicle ledger

A shallow embedding of the route handlers of `src/server.js`:

* `GET /api/status`   (lines 52-102)  ~ `getStatus`
* `POST /api/status`  (lines 108-134) ~ `postStatus`
* `POST /pay`         (lines 167-229) ~ `pay`
* `POST /api/update-time` (lines 250-264) ~ `updateTime`

Modelling conventions.

* A JavaScript number is a `JSNum`: not-a-number, the two infinities, or a
  finite IEEE-754 binary64 value (`Dbl`), held as the rational it denotes
  together with the fact that it is representable.  Arithmetic results are
  rounded to the nearest double, ties to even, overflowing to an infinity
  (`toDouble`).  The sign of zero is not kept: no handler observes it.
* `Date.now()` / `new Date()` is the handler argument `now`.
* The document store is a pure value: the singleton status document
  (`Option StatusDoc`) and the vehicle collection keyed by `_id`.  The one
  store failure that is modelled is the cast of an update to the schema: a
  NaN for a `Number` path is refused, the handler's `catch` answers 500 and
  nothing is written.
* Request fields are taken after the conversion the handler applies to them
  (`parseFloat` for `amount`, `voltage`, `current`); the `reminingtime` of
  `update-time` is taken as a number (a body where it is `null` or absent is
  outside the model).
-/

namespace SmartCharge

/-! ## IEEE-754 binary64 rounding -/

/-- Rounding of a rational to an integer, ties to the even neighbour. -/
def roundHalfEven (x : ℚ) : ℤ :=
  if x - ⌊x⌋ < 1 / 2 then ⌊x⌋
  else if 1 / 2 < x - ⌊x⌋ then ⌊x⌋ + 1
  else if ⌊x⌋ % 2 = 0 then ⌊x⌋ else ⌊x⌋ + 1

/-- The exponent of the binade of a magnitude, held at -1022 in the subnormal range. -/
def binade (x : ℚ) : ℤ := max (Int.log 2 x) (-1022)

/-- The spacing of the doubles in the binade of a magnitude. -/
def ulp (x : ℚ) : ℚ := (2 : ℚ) ^ (binade x - 52)

/-- A magnitude rounded to 53 significant bits, the exponent not bounded above. -/
def roundMag (x : ℚ) : ℚ := (roundHalfEven (x / ulp x) : ℚ) * ulp x

/-- The finite doubles: an integer of fewer than 54 bits times a power of two
in the exponent range of binary64. -/
def IsDouble (q : ℚ) : Prop :=
  ∃ m e : ℤ, |m| < 2 ^ 53 ∧ -1074 ≤ e ∧ e ≤ 971 ∧ q = (m : ℚ) * (2 : ℚ) ^ e

/-! ### Facts about rounding that the number type is built on -/

theorem roundHalfEven_intCast (k : ℤ) : roundHalfEven (k : ℚ) = k := by
  simp [roundHalfEven]

theorem floor_le_roundHalfEven (x : ℚ) : ⌊x⌋ ≤ roundHalfEven x := by
  unfold roundHalfEven
  split_ifs <;> omega

theorem roundHalfEven_le_floor_succ (x : ℚ) : roundHalfEven x ≤ ⌊x⌋ + 1 := by
  unfold roundHalfEven
  split_ifs <;> omega

theorem roundHalfEven_mono {x y : ℚ} (h : x ≤ y) : roundHalfEven x ≤ roundHalfEven y := by
  have hf : ⌊x⌋ ≤ ⌊y⌋ := Int.floor_mono h
  rcases hf.lt_or_eq with hlt | heq
  · calc roundHalfEven x ≤ ⌊x⌋ + 1 := roundHalfEven_le_floor_succ x
      _ ≤ ⌊y⌋ := hlt
      _ ≤ roundHalfEven y := floor_le_roundHalfEven y
  · unfold roundHalfEven
    rw [heq]
    have hxy : x - (⌊y⌋ : ℚ) ≤ y - (⌊y⌋ : ℚ) := by linarith
    split_ifs <;> first | omega | linarith


theorem ulp_pos (x : ℚ) : 0 < ulp x := zpow_pos (by norm_num) _

theorem log_le_binade (x : ℚ) : Int.log 2 x ≤ binade x := le_max_left _ _

theorem binade_ge (x : ℚ) : -1022 ≤ binade x := le_max_right _ _

theorem binade_eq_log {x : ℚ} (h : -1022 < binade x) : binade x = Int.log 2 x := by
  unfold binade at h ⊢
  rcases le_total (Int.log 2 x) (-1022) with h1 | h1
  · rw [max_eq_right h1] at h
    omega
  · exact max_eq_left h1

theorem lt_two_zpow_binade (x : ℚ) : x < (2 : ℚ) ^ (binade x + 1) := by
  have h := Int.lt_zpow_succ_log_self (R := ℚ) (b := 2) (by norm_num) x
  have h2 : ((2 : ℕ) : ℚ) ^ (Int.log 2 x + 1) ≤ (2 : ℚ) ^ (binade x + 1) := by
    rw [Nat.cast_ofNat]
    exact zpow_le_zpow_right₀ (by norm_num) (by linarith [log_le_binade x])
  exact lt_of_lt_of_le h h2

theorem two_zpow_binade_eq (x : ℚ) : (2 : ℚ) ^ (binade x + 1) = 2 ^ 53 * ulp x := by
  unfold ulp
  rw [show binade x + 1 = 53 + (binade x - 52) by ring, zpow_add₀ (by norm_num)]
  norm_num

theorem div_ulp_lt (x : ℚ) : x / ulp x < 2 ^ 53 := by
  rw [div_lt_iff₀ (ulp_pos x), ← two_zpow_binade_eq]
  exact lt_two_zpow_binade x

theorem roundHalfEven_div_ulp_le (x : ℚ) : roundHalfEven (x / ulp x) ≤ 2 ^ 53 := by
  have h := roundHalfEven_mono (le_of_lt (div_ulp_lt x))
  have h2 : roundHalfEven ((2 : ℚ) ^ 53) = 2 ^ 53 := by
    have := roundHalfEven_intCast (2 ^ 53)
    push_cast at this
    exact this
  rw [h2] at h
  exact h

theorem roundHalfEven_nonneg {x : ℚ} (hx : 0 ≤ x) : 0 ≤ roundHalfEven x :=
  le_trans (Int.floor_nonneg.mpr hx) (floor_le_roundHalfEven x)

theorem roundMag_nonneg {x : ℚ} (hx : 0 ≤ x) : 0 ≤ roundMag x := by
  unfold roundMag
  have h1 : (0 : ℚ) ≤ (roundHalfEven (x / ulp x) : ℚ) := by
    exact_mod_cast roundHalfEven_nonneg (div_nonneg hx (le_of_lt (ulp_pos x)))
  exact mul_nonneg h1 (le_of_lt (ulp_pos x))

/-- In a normal binade the rounded significand has its leading bit. -/
theorem le_roundHalfEven_div_ulp {x : ℚ} (hx : 0 < x) (hb : binade x = Int.log 2 x) :
    2 ^ 52 ≤ roundHalfEven (x / ulp x) := by
  have h1 : (2 : ℚ) ^ (binade x) ≤ x := by
    rw [hb]
    have := Int.zpow_log_le_self (R := ℚ) (b := 2) (by norm_num) hx
    rwa [Nat.cast_ofNat] at this
  have h2 : (2 : ℚ) ^ (binade x) = 2 ^ 52 * ulp x := by
    unfold ulp
    rw [show binade x = 52 + (binade x - 52) by ring, zpow_add₀ (by norm_num)]
    norm_num
  have h3 : (2 : ℚ) ^ 52 ≤ x / ulp x := by
    rw [le_div_iff₀ (ulp_pos x), ← h2]
    exact h1
  have h4 := roundHalfEven_mono h3
  have h5 : roundHalfEven ((2 : ℚ) ^ 52) = 2 ^ 52 := by
    have := roundHalfEven_intCast (2 ^ 52)
    push_cast at this
    exact this
  rw [h5] at h4
  exact h4

theorem roundMag_le_two_zpow (x : ℚ) : roundMag x ≤ (2 : ℚ) ^ (binade x + 1) := by
  rw [two_zpow_binade_eq]
  unfold roundMag
  have h : (roundHalfEven (x / ulp x) : ℚ) ≤ 2 ^ 53 := by
    exact_mod_cast roundHalfEven_div_ulp_le x
  exact mul_le_mul_of_nonneg_right h (le_of_lt (ulp_pos x))

theorem two_zpow_le_roundMag {x : ℚ} (hx : 0 < x) (hb : binade x = Int.log 2 x) :
    (2 : ℚ) ^ (binade x) ≤ roundMag x := by
  have h2 : (2 : ℚ) ^ (binade x) = 2 ^ 52 * ulp x := by
    unfold ulp
    rw [show binade x = 52 + (binade x - 52) by ring, zpow_add₀ (by norm_num)]
    norm_num
  rw [h2]
  unfold roundMag
  have h : (2 : ℚ) ^ 52 ≤ (roundHalfEven (x / ulp x) : ℚ) := by
    exact_mod_cast le_roundHalfEven_div_ulp hx hb
  exact mul_le_mul_of_nonneg_right h (le_of_lt (ulp_pos x))

/-- Rounding is monotone on magnitudes. -/
theorem roundMag_mono {x y : ℚ} (hx : 0 ≤ x) (hxy : x ≤ y) : roundMag x ≤ roundMag y := by
  rcases hx.lt_or_eq with hpos | hzero
  · have hy : 0 < y := lt_of_lt_of_le hpos hxy
    have hlog : Int.log 2 x ≤ Int.log 2 y := Int.log_mono_right hpos hxy
    have hbin : binade x ≤ binade y := max_le_max hlog le_rfl
    rcases hbin.lt_or_eq with hlt | heq
    · have hby : binade y = Int.log 2 y := binade_eq_log (by linarith [binade_ge x])
      calc roundMag x ≤ (2 : ℚ) ^ (binade x + 1) := roundMag_le_two_zpow x
        _ ≤ (2 : ℚ) ^ (binade y) := zpow_le_zpow_right₀ (by norm_num) (by omega)
        _ ≤ roundMag y := two_zpow_le_roundMag hy hby
    · unfold roundMag
      have hu : ulp x = ulp y := by unfold ulp; rw [heq]
      rw [hu]
      have h1 : x / ulp y ≤ y / ulp y := div_le_div_of_nonneg_right hxy (le_of_lt (ulp_pos y))
      have h2 : (roundHalfEven (x / ulp y) : ℚ) ≤ roundHalfEven (y / ulp y) := by
        exact_mod_cast roundHalfEven_mono h1
      exact mul_le_mul_of_nonneg_right h2 (le_of_lt (ulp_pos y))
  · rw [← hzero]
    have h0 : roundMag 0 = 0 := by simp [roundMag, roundHalfEven]
    rw [h0]
    exact roundMag_nonneg (by rw [← hzero] at hxy; exact hxy)


/-- A double magnitude is its own rounding. -/
theorem roundMag_of_rep (m e : ℤ) (hm0 : 0 ≤ m) (hm : m < 2 ^ 53) (he : -1074 ≤ e) :
    roundMag ((m : ℚ) * (2 : ℚ) ^ e) = (m : ℚ) * (2 : ℚ) ^ e := by
  rcases hm0.lt_or_eq with hpos | hzero
  · set x : ℚ := (m : ℚ) * (2 : ℚ) ^ e with hxdef
    have h2e : (0 : ℚ) < (2 : ℚ) ^ e := zpow_pos (by norm_num) _
    have hx : 0 < x := mul_pos (by exact_mod_cast hpos) h2e
    have hxlt : x < ((2 : ℕ) : ℚ) ^ (e + 53) := by
      have hm53 : (m : ℚ) < 2 ^ 53 := by exact_mod_cast hm
      have h53 : ((2 : ℚ) ^ (53 : ℤ)) = 2 ^ 53 := by norm_num
      rw [Nat.cast_ofNat, zpow_add₀ (by norm_num), h53, mul_comm ((2 : ℚ) ^ e)]
      exact mul_lt_mul_of_pos_right hm53 h2e
    have hlog : Int.log 2 x < e + 53 := (Int.lt_zpow_iff_log_lt (by norm_num) hx).mp hxlt
    have hbin : binade x - 52 ≤ e := by
      unfold binade
      have : max (Int.log 2 x) (-1022) ≤ e + 52 := max_le (by omega) (by omega)
      omega
    obtain ⟨n, hn⟩ := Int.eq_ofNat_of_zero_le (sub_nonneg.mpr hbin)
    have hdiv : x / ulp x = ((m * 2 ^ n : ℤ) : ℚ) := by
      unfold ulp
      rw [div_eq_iff (ne_of_gt (zpow_pos (by norm_num) _))]
      push_cast
      rw [mul_assoc, ← zpow_natCast, ← zpow_add₀ (by norm_num), ← hn]
      rw [show e - (binade x - 52) + (binade x - 52) = e by ring]
    unfold roundMag
    rw [hdiv, roundHalfEven_intCast, ← hdiv]
    exact div_mul_cancel₀ x (ne_of_gt (ulp_pos x))
  · subst hzero
    simp [roundMag, roundHalfEven]

/-- The rounding of a magnitude, when below the overflow threshold, is a double. -/
theorem roundMag_isDouble {x : ℚ} (hx : 0 ≤ x) (h : roundMag x < 2 ^ 1024) :
    IsDouble (roundMag x) := by
  have hm0 : 0 ≤ roundHalfEven (x / ulp x) :=
    roundHalfEven_nonneg (div_nonneg hx (le_of_lt (ulp_pos x)))
  have hm53 := roundHalfEven_div_ulp_le x
  have hbg := binade_ge x
  have hE : binade x ≤ 1023 := by
    by_contra hc
    push_neg at hc
    have hb : binade x = Int.log 2 x := binade_eq_log (by omega)
    have hxpos : 0 < x := by
      rcases hx.lt_or_eq with h1 | h1
      · exact h1
      · subst h1
        rw [Int.log_zero_right] at hb
        omega
    have h1 := two_zpow_le_roundMag hxpos hb
    have h2 : (2 : ℚ) ^ (1024 : ℤ) ≤ (2 : ℚ) ^ (binade x) :=
      zpow_le_zpow_right₀ (by norm_num) (by omega)
    have h3 : ((2 : ℚ) ^ (1024 : ℤ)) = 2 ^ 1024 := by norm_num
    rw [h3] at h2
    linarith
  rcases hm53.lt_or_eq with hlt | heq
  · refine ⟨roundHalfEven (x / ulp x), binade x - 52, ?_, by omega, by omega, rfl⟩
    rw [abs_of_nonneg hm0]
    exact hlt
  · have hval : roundMag x = ((2 ^ 52 : ℤ) : ℚ) * (2 : ℚ) ^ (binade x - 51) := by
      unfold roundMag
      rw [heq]
      unfold ulp
      rw [show binade x - 51 = 1 + (binade x - 52) by ring, zpow_add₀ (by norm_num)]
      push_cast
      ring
    have hE2 : binade x ≤ 1022 := by
      by_contra hc
      push_neg at hc
      have hb : binade x = 1023 := by omega
      rw [hval, hb] at h
      norm_num at h
    rw [hval]
    exact ⟨2 ^ 52, binade x - 51, by norm_num, by omega, by omega, rfl⟩

theorem IsDouble.neg {q : ℚ} (h : IsDouble q) : IsDouble (-q) := by
  obtain ⟨m, e, hm, he1, he2, hq⟩ := h
  exact ⟨-m, e, by rwa [abs_neg], he1, he2, by rw [hq]; push_cast; ring⟩

theorem IsDouble.abs_lt {q : ℚ} (h : IsDouble q) : |q| < 2 ^ 1024 := by
  obtain ⟨m, e, hm, he1, he2, hq⟩ := h
  have h2e : (0 : ℚ) < (2 : ℚ) ^ e := zpow_pos (by norm_num) _
  rw [hq, abs_mul, abs_of_pos h2e]
  have h1 : |(m : ℚ)| < 2 ^ 53 := by exact_mod_cast hm
  have h2 : (2 : ℚ) ^ e ≤ (2 : ℚ) ^ (971 : ℤ) := zpow_le_zpow_right₀ (by norm_num) he2
  calc |(m : ℚ)| * (2 : ℚ) ^ e < 2 ^ 53 * (2 : ℚ) ^ e := mul_lt_mul_of_pos_right h1 h2e
    _ ≤ 2 ^ 53 * (2 : ℚ) ^ (971 : ℤ) := mul_le_mul_of_nonneg_left h2 (by norm_num)
    _ = 2 ^ 1024 := by norm_num

theorem IsDouble.roundMag_eq {q : ℚ} (h : IsDouble q) (hq : 0 ≤ q) : roundMag q = q := by
  obtain ⟨m, e, hm, he1, he2, rfl⟩ := h
  have h2e : (0 : ℚ) < (2 : ℚ) ^ e := zpow_pos (by norm_num) _
  have hm0 : 0 ≤ m := by
    have : (0 : ℚ) ≤ (m : ℚ) := nonneg_of_mul_nonneg_left hq h2e
    exact_mod_cast this
  exact roundMag_of_rep m e hm0 (by rwa [abs_of_nonneg hm0] at hm) he1

theorem isDouble_intCast (n : ℤ) (h : |n| < 2 ^ 53) : IsDouble (n : ℚ) :=
  ⟨n, 0, h, by norm_num, by norm_num, by simp⟩


/-- The floor of a double is a double. -/
theorem IsDouble.floor {q : ℚ} (h : IsDouble q) : IsDouble ((⌊q⌋ : ℤ) : ℚ) := by
  obtain ⟨m, e, hm, he1, he2, hq⟩ := h
  rcases le_or_lt 0 e with hpos | hneg
  · obtain ⟨n, hn⟩ := Int.eq_ofNat_of_zero_le hpos
    have hint : q = ((m * 2 ^ n : ℤ) : ℚ) := by
      rw [hq, hn, zpow_natCast]
      push_cast
      ring
    have hfl : ((⌊q⌋ : ℤ) : ℚ) = q := by
      rw [hint, Int.floor_intCast]
    rw [hfl]
    exact ⟨m, e, hm, he1, he2, hq⟩
  · obtain ⟨n, hn⟩ := Int.eq_ofNat_of_zero_le (show 0 ≤ -e by omega)
    have he : e = -(n : ℤ) := by omega
    have hdiv : q = (m : ℚ) / ((2 ^ n : ℕ) : ℚ) := by
      rw [hq, he, zpow_neg, zpow_natCast]
      push_cast
      ring
    have hfl : ⌊q⌋ = m / ((2 ^ n : ℕ) : ℤ) := by
      rw [hdiv]
      exact Rat.floor_intCast_div_natCast m (2 ^ n)
    rw [hfl]
    exact isDouble_intCast _ (lt_of_le_of_lt (Int.abs_ediv_le_abs m _) hm)

/-! ## JavaScript numbers -/

/-- A finite double: the rational it denotes, which is representable. -/
structure Dbl where
  val : ℚ
  isDouble : IsDouble val

instance : DecidableEq Dbl := fun a b =>
  decidable_of_iff (a.val = b.val) (by cases a; cases b; simp)

/-- Two doubles with the same value are the same. -/
theorem Dbl.ext {a b : Dbl} (h : a.val = b.val) : a = b := by
  cases a
  cases b
  simpa using h

/-- The double 0. -/
def Dbl.zero : Dbl := ⟨0, isDouble_intCast 0 (by norm_num)⟩

/-- A JavaScript number: NaN, plus or minus Infinity, or a finite double. -/
inductive JSNum where
  | nan : JSNum
  | posInf : JSNum
  | negInf : JSNum
  | fin (d : Dbl) : JSNum
  deriving DecidableEq

/-- The double nearest to a rational, ties to even, an infinity on overflow:
the value of a decimal literal and of every arithmetic result. -/
def toDouble (q : ℚ) : JSNum :=
  if hq : 0 ≤ q then
    if h : roundMag q < 2 ^ 1024 then JSNum.fin ⟨roundMag q, roundMag_isDouble hq h⟩
    else JSNum.posInf
  else
    if h : roundMag (-q) < 2 ^ 1024 then
      JSNum.fin ⟨-roundMag (-q), (roundMag_isDouble (by linarith) h).neg⟩
    else JSNum.negInf

namespace JSNum

/-- The number 0. -/
def zero : JSNum := fin Dbl.zero

/-- The global `isNaN` on a number. -/
def isNaN : JSNum → Bool
  | nan => true
  | _ => false

/-- The operator `a < b` on numbers: false as soon as one side is NaN. -/
def lt : JSNum → JSNum → Bool
  | nan, _ => false
  | _, nan => false
  | posInf, _ => false
  | _, negInf => false
  | negInf, _ => true
  | fin _, posInf => true
  | fin a, fin b => decide (a.val < b.val)

/-- The operator `a <= b` on numbers: false as soon as one side is NaN. -/
def le : JSNum → JSNum → Bool
  | nan, _ => false
  | _, nan => false
  | negInf, _ => true
  | _, posInf => true
  | posInf, _ => false
  | fin _, negInf => false
  | fin a, fin b => decide (a.val ≤ b.val)

/-- The operator `a > b`. -/
def gt (a b : JSNum) : Bool := lt b a

/-- The operator `a >= b`. -/
def ge (a b : JSNum) : Bool := le b a

/-- The operator `a + b` on numbers: the exact sum of two finite doubles,
rounded to the nearest double. -/
def add : JSNum → JSNum → JSNum
  | nan, _ => nan
  | _, nan => nan
  | posInf, negInf => nan
  | negInf, posInf => nan
  | posInf, _ => posInf
  | negInf, _ => negInf
  | fin _, posInf => posInf
  | fin _, negInf => negInf
  | fin a, fin b => toDouble (a.val + b.val)

/-- The quotient `a / d` for a positive finite constant divisor `d` (the
handler only divides by the literal 10): the exact quotient rounded to the
nearest double. -/
def divConst (a : JSNum) (d : ℚ) : JSNum :=
  match a with
  | nan => nan
  | posInf => posInf
  | negInf => negInf
  | fin q => toDouble (q.val / d)

/-- The function `Math.floor`; the floor of a double is exact. -/
def floor : JSNum → JSNum
  | nan => nan
  | posInf => posInf
  | negInf => negInf
  | fin q => fin ⟨((⌊q.val⌋ : ℤ) : ℚ), q.isDouble.floor⟩

/-- The rational a finite number denotes. -/
def toRat? : JSNum → Option ℚ
  | fin q => some q.val
  | _ => none

end JSNum

/-! ## Documents and the store -/

/-- A document of the `status` collection (`statusSchema`, lines 28-34).
`status` can be missing on a document created by an upsert that supplied
only `voltage` or `current`; `voltage` and `current` default to `null`. -/
structure StatusDoc where
  status : Option String
  voltage : Option JSNum
  current : Option JSNum
  receivedAt : Nat
  deriving DecidableEq

/-- A document of the `myevdata` collection (`vehicleSchema`, lines 38-46).
The `_id` is the key under which the store holds it. -/
structure VehicleDoc where
  vehicleNumber : String
  vehicleModel : String
  amount : JSNum
  totaltime : JSNum
  reminingtime : JSNum
  timestamp : Nat
  deriving DecidableEq

/-- The two collections: the singleton with `_id = "status"` and the
vehicle documents keyed by `_id`. -/
structure Store where
  status : Option StatusDoc
  vehicles : List (String × VehicleDoc)
  deriving DecidableEq

/-- The update object built for the status document: only the supplied
fields are set. -/
structure StatusUpdate where
  status : Option String
  receivedAt : Option Nat
  voltage : Option JSNum
  current : Option JSNum
  deriving DecidableEq

/-- The cast of an update to the schema fails: a `Number` path is given NaN. -/
def StatusUpdate.castFails (u : StatusUpdate) : Bool :=
  (match u.voltage with
    | some x => x.isNaN
    | none => false) ||
  (match u.current with
    | some x => x.isNaN
    | none => false)

/-- The check `Object.keys(update).length` as a truth value. -/
def StatusUpdate.nonEmpty (u : StatusUpdate) : Bool :=
  u.status.isSome || u.receivedAt.isSome || u.voltage.isSome || u.current.isSome

/-- Setting the supplied fields of `u` on an existing status document. -/
def StatusDoc.set (d : StatusDoc) (u : StatusUpdate) : StatusDoc :=
  { status := match u.status with
      | some x => some x
      | none => d.status
    voltage := match u.voltage with
      | some x => some x
      | none => d.voltage
    current := match u.current with
      | some x => some x
      | none => d.current
    receivedAt := match u.receivedAt with
      | some t => t
      | none => d.receivedAt }

/-- The document an upsert inserts before the update is applied: the schema
defaults (`voltage: null`, `current: null`, `receivedAt: Date.now`). -/
def StatusDoc.fresh (now : Nat) : StatusDoc :=
  { status := none, voltage := none, current := none, receivedAt := now }

/-- The call `Status.findByIdAndUpdate("status", u, { upsert: true, new: true })`:
the new collection content and the returned (updated) document. -/
def statusUpsert (now : Nat) (cur : Option StatusDoc) (u : StatusUpdate) : StatusDoc :=
  match cur with
  | some d => d.set u
  | none => (StatusDoc.fresh now).set u

/-- The call `Status.findByIdAndUpdate("status", u)` without options: an absent
document stays absent. -/
def statusUpdateExisting (cur : Option StatusDoc) (u : StatusUpdate) : Option StatusDoc :=
  match cur with
  | some d => some (d.set u)
  | none => none

/-- The call `Vehicle.findById(id)`. -/
def findVehicle : List (String × VehicleDoc) → String → Option VehicleDoc
  | [], _ => none
  | (k, v) :: rest, id => if k = id then some v else findVehicle rest id

/-- The call `Vehicle.findByIdAndUpdate(id, v, { upsert: true, new: true })`
where `v` sets every schema field: the document under `id` becomes `v`,
inserted when there was none. -/
def upsertVehicle : List (String × VehicleDoc) → String → VehicleDoc →
    List (String × VehicleDoc)
  | [], id, v => [(id, v)]
  | (k, w) :: rest, id, v =>
    if k = id then (k, v) :: rest else (k, w) :: upsertVehicle rest id v

/-- The call `Vehicle.findByIdAndUpdate(id, { reminingtime })` without options:
only `reminingtime` is overwritten, and nothing is inserted. -/
def setRemainingTime : List (String × VehicleDoc) → String → JSNum →
    List (String × VehicleDoc)
  | [], _, _ => []
  | (k, w) :: rest, id, t =>
    if k = id then (k, { w with reminingtime := t }) :: rest
    else (k, w) :: setRemainingTime rest id t

/-! ## Requests and responses -/

/-- What a handler sends back. -/
inductive Response where
  /-- Code 200: `{ success: true, message: 'Status updated successfully', status, voltage, current }` -/
  | statusUpdated (status : Option String) (voltage current : Option JSNum)
  /-- Code 200: `{ success: true, status, voltage, current }` -/
  | statusFound (status : Option String) (voltage current : Option JSNum)
  /-- Code 200: `{ success: false, message: "No status found" }` -/
  | statusNotFound
  /-- Code 400: `{ success: false, message: 'Missing status in request body' }` -/
  | missingStatus
  /-- Code 200: `{ success: true, message: 'Status updated successfully' }` -/
  | statusSaved
  /-- Code 400: `"Invalid amount"` -/
  | invalidAmount
  /-- Code 302: to `/waiting.html?vehicleNumber=<id>` -/
  | redirectWaiting (vehicleNumber : String)
  /-- Code 200: `{ success: true, message: "Remaining time updated" }` -/
  | timeUpdated
  /-- Code 500: the answer of a handler's `catch` branch -/
  | serverError
  deriving DecidableEq

/-- The query (or body) of the status routes: each field absent or present;
`voltage` and `current` already through `parseFloat`. -/
structure StatusParams where
  status : Option String
  voltage : Option JSNum
  current : Option JSNum
  deriving DecidableEq

/-- Truthiness of a possibly absent string: present and not empty. -/
def truthy : Option String → Bool
  | some s => s != ""
  | none => false

/-- The body of `POST /pay`, `amount` already through `parseFloat`. -/
structure PayRequest where
  vehicleNumber : String
  vehicleModel : String
  amount : JSNum
  deriving DecidableEq

/-! ## Handlers -/

/-- The update object of `GET /api/status` (lines 58-68). -/
def getStatusUpdate (now : Nat) (q : StatusParams) : StatusUpdate :=
  { status := if truthy q.status then q.status else none
    receivedAt := if truthy q.status then some now else none
    voltage := q.voltage
    current := q.current }

/-- The handler `app.get('/api/status')` (lines 52-102). -/
def getStatus (now : Nat) (s : Store) (q : StatusParams) : Response × Store :=
  let update := getStatusUpdate now q
  if update.nonEmpty then
    if update.castFails then (Response.serverError, s) else
    let updatedStatus := statusUpsert now s.status update
    (Response.statusUpdated updatedStatus.status updatedStatus.voltage updatedStatus.current,
      { s with status := some updatedStatus })
  else
    match s.status with
    | some currentStatus =>
      (Response.statusFound currentStatus.status currentStatus.voltage currentStatus.current, s)
    | none => (Response.statusNotFound, s)

/-- The handler `app.post('/api/status')` (lines 108-134). -/
def postStatus (now : Nat) (s : Store) (b : StatusParams) : Response × Store :=
  if !truthy b.status then (Response.missingStatus, s)
  else
    let update : StatusUpdate :=
      { status := b.status, receivedAt := some now, voltage := b.voltage, current := b.current }
    if update.castFails then (Response.serverError, s) else
    (Response.statusSaved, { s with status := some (statusUpsert now s.status update) })

/-- The value `newTime = Math.floor(amount / 10)` (line 177). -/
def newTime (amount : JSNum) : JSNum := (amount.divConst 10).floor

/-- The document written by `POST /pay` (lines 188-213). -/
def payDoc (now : Nat) (existing : Option VehicleDoc) (req : PayRequest) : VehicleDoc :=
  match existing with
  | some existingVehicle =>
    if existingVehicle.reminingtime.gt (JSNum.zero) then
      { vehicleNumber := req.vehicleNumber
        vehicleModel := req.vehicleModel
        amount := req.amount
        totaltime := existingVehicle.reminingtime.add (newTime req.amount)
        reminingtime := existingVehicle.reminingtime.add (newTime req.amount)
        timestamp := now }
    else
      { vehicleNumber := req.vehicleNumber
        vehicleModel := req.vehicleModel
        amount := req.amount
        totaltime := newTime req.amount
        reminingtime := newTime req.amount
        timestamp := now }
  | none =>
    { vehicleNumber := req.vehicleNumber
      vehicleModel := req.vehicleModel
      amount := req.amount
      totaltime := newTime req.amount
      reminingtime := newTime req.amount
      timestamp := now }

/-- The handler `app.post('/pay')` (lines 167-229).  The status collection is
not written: the update to "Charging" is commented out (lines 216-222). -/
def pay (now : Nat) (s : Store) (req : PayRequest) : Response × Store :=
  if req.amount.isNaN || req.amount.le (JSNum.zero) then (Response.invalidAmount, s)
  else
    let existingVehicle := findVehicle s.vehicles req.vehicleNumber
    (Response.redirectWaiting req.vehicleNumber,
      { s with vehicles := upsertVehicle s.vehicles req.vehicleNumber (payDoc now existingVehicle req) })

/-- The update object `{ status: "Finished" }` (line 258). -/
def finishedUpdate : StatusUpdate :=
  { status := some "Finished", receivedAt := none, voltage := none, current := none }

/-- The handler `app.post('/api/update-time')` (lines 250-264); `reminingtime`
is the numeric value of the body field.  A NaN fails the cast of the vehicle
update, before the answer is sent and before the status is looked at. -/
def updateTime (s : Store) (vehicleNumber : String) (reminingtime : JSNum) : Response × Store :=
  if reminingtime.isNaN then (Response.serverError, s) else
  let s1 : Store := { s with vehicles := setRemainingTime s.vehicles vehicleNumber reminingtime }
  if reminingtime.le (JSNum.zero) then
    (Response.timeUpdated,
      { s1 with status := statusUpdateExisting s1.status finishedUpdate })
  else (Response.timeUpdated, s1)

end SmartCharge

namespace SmartCharge

/-! ## Auxiliary facts about the numbers -/

/-- A double is its own nearest double. -/
theorem toDouble_of_isDouble (q : ℚ) (h : IsDouble q) : toDouble q = JSNum.fin ⟨q, h⟩ := by
  have hlt := h.abs_lt
  unfold toDouble
  by_cases hq : 0 ≤ q
  · have hr := h.roundMag_eq hq
    have hb : roundMag q < 2 ^ 1024 := by
      rw [hr]
      exact lt_of_le_of_lt (le_abs_self q) hlt
    simp only [hq, hb, dite_true]
    congr 1
    exact Dbl.ext (show roundMag q = q from hr)
  · have hn : 0 ≤ -q := by linarith
    have hr := h.neg.roundMag_eq hn
    have hb : roundMag (-q) < 2 ^ 1024 := by
      rw [hr]
      exact lt_of_le_of_lt (neg_le_abs q) hlt
    simp only [hq, hb, dite_true, dite_false]
    congr 1
    exact Dbl.ext (show -roundMag (-q) = q by rw [hr, neg_neg])

/-- Rounding the value of a double gives the double back. -/
theorem toDouble_val (d : Dbl) : toDouble d.val = JSNum.fin d :=
  toDouble_of_isDouble d.val d.isDouble

/-- The literal 0 is the number 0. -/
theorem toDouble_zero : toDouble 0 = JSNum.zero :=
  toDouble_of_isDouble 0 (isDouble_intCast 0 (by norm_num)) |>.trans
    (by simp [JSNum.zero, Dbl.zero])

/-- The rounding of a magnitude between two double magnitudes is a finite
double between them. -/
theorem toDouble_between (lo hi : Dbl) (y : ℚ) (hlo : 0 ≤ lo.val) (h1 : lo.val ≤ y)
    (h2 : y ≤ hi.val) :
    ∃ d : Dbl, toDouble y = JSNum.fin d ∧ lo.val ≤ d.val ∧ d.val ≤ hi.val := by
  have hy : 0 ≤ y := le_trans hlo h1
  have hhi : 0 ≤ hi.val := le_trans hy h2
  have hL : lo.val ≤ roundMag y := by
    have := roundMag_mono hlo h1
    rwa [lo.isDouble.roundMag_eq hlo] at this
  have hU : roundMag y ≤ hi.val := by
    have := roundMag_mono hy h2
    rwa [hi.isDouble.roundMag_eq hhi] at this
  have hb : roundMag y < 2 ^ 1024 :=
    lt_of_le_of_lt hU (lt_of_le_of_lt (le_abs_self _) hi.isDouble.abs_lt)
  refine ⟨⟨roundMag y, roundMag_isDouble hy hb⟩, ?_, hL, hU⟩
  unfold toDouble
  simp only [hy, hb, dite_true]

/-- The rounding of a magnitude not below a double magnitude is `Infinity` or
a finite double not below it. -/
theorem toDouble_ge (lo : Dbl) (y : ℚ) (hlo : 0 ≤ lo.val) (h1 : lo.val ≤ y) :
    toDouble y = JSNum.posInf ∨ ∃ d : Dbl, toDouble y = JSNum.fin d ∧ lo.val ≤ d.val := by
  have hy : 0 ≤ y := le_trans hlo h1
  have hL : lo.val ≤ roundMag y := by
    have := roundMag_mono hlo h1
    rwa [lo.isDouble.roundMag_eq hlo] at this
  unfold toDouble
  by_cases hb : roundMag y < 2 ^ 1024
  · right
    exact ⟨⟨roundMag y, roundMag_isDouble hy hb⟩, by simp only [hy, hb, dite_true], hL⟩
  · left
    simp only [hy, hb, dite_true, dite_false]

/-- The value of a rounded magnitude below the overflow threshold. -/
theorem toDouble_toRat (y : ℚ) (hy : 0 ≤ y) (hb : roundMag y < 2 ^ 1024) :
    (toDouble y).toRat? = some (roundMag y) := by
  unfold toDouble
  simp only [hy, hb, dite_true, JSNum.toRat?]

/-- The sum of two doubles whose exact sum is a double is that sum. -/
theorem add_toDouble (a b : ℚ) (ha : IsDouble a) (hb : IsDouble b) :
    (toDouble a).add (toDouble b) = toDouble (a + b) := by
  rw [toDouble_of_isDouble a ha, toDouble_of_isDouble b hb]
  rfl

end SmartCharge

namespace SmartCharge

/-- A rational strictly within a half of an integer rounds to it. -/
theorem roundHalfEven_eq_of_lt (x : ℚ) (m : ℤ) (h1 : (m : ℚ) - 1 / 2 < x)
    (h2 : x < (m : ℚ) + 1 / 2) : roundHalfEven x = m := by
  rcases le_or_lt (m : ℚ) x with hge | hlt
  · have hf : ⌊x⌋ = m := Int.floor_eq_iff.mpr ⟨hge, by linarith⟩
    unfold roundHalfEven
    rw [hf]
    rw [if_pos (by linarith)]
  · have hf : ⌊x⌋ = m - 1 := Int.floor_eq_iff.mpr ⟨by push_cast; linarith, by push_cast; linarith⟩
    unfold roundHalfEven
    rw [hf]
    have hc : ¬ (x - ((m - 1 : ℤ) : ℚ) < 1 / 2) := by push_cast; linarith
    have hc2 : (1 : ℚ) / 2 < x - ((m - 1 : ℤ) : ℚ) := by push_cast; linarith
    rw [if_neg hc, if_pos hc2]
    ring

/-- The binade of a magnitude between two consecutive powers of two. -/
theorem binade_eq_of (x : ℚ) (E : ℤ) (hE : -1022 ≤ E) (h1 : (2 : ℚ) ^ E ≤ x)
    (h2 : x < (2 : ℚ) ^ (E + 1)) : binade x = E := by
  have hx : 0 < x := lt_of_lt_of_le (zpow_pos (by norm_num) _) h1
  have hl1 : E ≤ Int.log 2 x :=
    (Int.zpow_le_iff_le_log (by norm_num) hx).mp (by rwa [Nat.cast_ofNat])
  have hl2 : Int.log 2 x < E + 1 :=
    (Int.lt_zpow_iff_log_lt (by norm_num) hx).mp (by rwa [Nat.cast_ofNat])
  unfold binade
  rw [max_eq_left (by omega)]
  omega

/-- The rounding of a magnitude, from its binade and the nearest significand. -/
theorem roundMag_eq_of (x : ℚ) (E m : ℤ) (hE : -1022 ≤ E) (h1 : (2 : ℚ) ^ E ≤ x)
    (h2 : x < (2 : ℚ) ^ (E + 1)) (hm1 : ((m : ℚ) - 1 / 2) * (2 : ℚ) ^ (E - 52) < x)
    (hm2 : x < ((m : ℚ) + 1 / 2) * (2 : ℚ) ^ (E - 52)) :
    roundMag x = (m : ℚ) * (2 : ℚ) ^ (E - 52) := by
  have hb := binade_eq_of x E hE h1 h2
  have hu : ulp x = (2 : ℚ) ^ (E - 52) := by unfold ulp; rw [hb]
  have hpos : (0 : ℚ) < (2 : ℚ) ^ (E - 52) := zpow_pos (by norm_num) _
  unfold roundMag
  rw [hu, roundHalfEven_eq_of_lt (x / (2 : ℚ) ^ (E - 52)) m
    (by rw [lt_div_iff₀ hpos]; exact hm1) (by rw [div_lt_iff₀ hpos]; exact hm2)]

/-! ## Auxiliary facts about the store and the handlers -/

/-- After an upsert under `id`, a lookup of `id` finds the written document. -/
theorem findVehicle_upsertVehicle (l : List (String × VehicleDoc)) (id : String)
    (v : VehicleDoc) : findVehicle (upsertVehicle l id v) id = some v := by
  induction l with
  | nil => simp [upsertVehicle, findVehicle]
  | cons hd tl ih =>
    obtain ⟨k, w⟩ := hd
    by_cases hk : k = id
    · simp [upsertVehicle, findVehicle, hk]
    · simp [upsertVehicle, findVehicle, hk, ih]

/-- The purchased minutes of a finite amount: the floor of the rounded quotient. -/
theorem newTime_fin (q : Dbl) : newTime (JSNum.fin q) = (toDouble (q.val / 10)).floor := rfl

/-- The purchased minutes of a finite amount that is not negative are a finite
number, not negative and not above the amount. -/
theorem newTime_fin_nonneg (q : Dbl) (hq : 0 ≤ q.val) :
    ∃ t : Dbl, newTime (JSNum.fin q) = JSNum.fin t ∧ 0 ≤ t.val ∧ t.val ≤ q.val := by
  obtain ⟨d, hd, h0, h1⟩ := toDouble_between Dbl.zero q (q.val / 10) (le_refl _)
    (by simpa [Dbl.zero] using div_nonneg hq (by norm_num : (0 : ℚ) ≤ 10))
    (by linarith)
  have h0d : (0 : ℚ) ≤ d.val := by simpa [Dbl.zero] using h0
  refine ⟨⟨((⌊d.val⌋ : ℤ) : ℚ), d.isDouble.floor⟩, ?_, ?_, ?_⟩
  · rw [newTime_fin, hd]
    rfl
  · show (0 : ℚ) ≤ ((⌊d.val⌋ : ℤ) : ℚ)
    exact_mod_cast Int.floor_nonneg.mpr h0d
  · exact le_trans (Int.floor_le d.val) h1

/-- When the exact quotient is itself a double, the purchased minutes are its
exact floor. -/
theorem newTime_exact (q : Dbl) (h : IsDouble (q.val / 10)) :
    (newTime (JSNum.fin q)).toRat? = some ((⌊q.val / 10⌋ : ℤ) : ℚ) := by
  rw [newTime_fin, toDouble_of_isDouble _ h]
  rfl

/-- The purchased minutes of a literal amount whose tenth is a double. -/
theorem newTime_toDouble (q : ℚ) (hq : IsDouble q) (h : IsDouble (q / 10)) :
    newTime (toDouble q) = toDouble ((⌊q / 10⌋ : ℤ) : ℚ) := by
  rw [toDouble_of_isDouble q hq, newTime_fin, toDouble_of_isDouble _ h,
    toDouble_of_isDouble _ h.floor]
  rfl

/-- For a whole-number amount below 2^52 the purchased minutes are the exact
integer quotient by 10. -/
theorem newTime_int (q : Dbl) (n : ℤ) (hn : q.val = (n : ℚ)) (h0 : 0 < n) (h52 : n < 2 ^ 52) :
    (newTime (JSNum.fin q)).toRat? = some ((n / 10 : ℤ) : ℚ) := by
  have hk0 : 0 ≤ n / 10 := Int.ediv_nonneg (le_of_lt h0) (by norm_num)
  have hdm := Int.emod_add_ediv n 10
  have hr0 := Int.emod_nonneg n (by norm_num : (10 : ℤ) ≠ 0)
  have hr9 := Int.emod_lt_of_pos n (by norm_num : (0 : ℤ) < 10)
  have hlo : IsDouble ((n / 10 : ℤ) : ℚ) := isDouble_intCast _ (by rw [abs_of_nonneg hk0]; omega)
  have hhi : IsDouble (((n / 10 : ℤ) : ℚ) + 15 / 16) := by
    refine ⟨16 * (n / 10) + 15, -4, ?_, by norm_num, by norm_num, ?_⟩
    · rw [abs_of_nonneg (by omega)]
      omega
    · push_cast
      rw [show ((2 : ℚ) ^ (-4 : ℤ)) = 1 / 16 by norm_num]
      ring
  have hy : q.val / 10 = ((n / 10 : ℤ) : ℚ) + ((n % 10 : ℤ) : ℚ) / 10 := by
    rw [hn]
    have : (n : ℚ) = ((n % 10 + 10 * (n / 10) : ℤ) : ℚ) := by rw [hdm]
    rw [this]
    push_cast
    ring
  have hrq0 : (0 : ℚ) ≤ ((n % 10 : ℤ) : ℚ) := by exact_mod_cast hr0
  have hrq9 : ((n % 10 : ℤ) : ℚ) ≤ 9 := by
    have : n % 10 ≤ 9 := by omega
    exact_mod_cast this
  obtain ⟨d, hd, h1, h2⟩ := toDouble_between ⟨_, hlo⟩ ⟨_, hhi⟩ (q.val / 10)
    (show (0 : ℚ) ≤ ((n / 10 : ℤ) : ℚ) by exact_mod_cast hk0) (by rw [hy]; simp only; linarith) (by rw [hy]; simp only; linarith)
  simp only at h1 h2
  have hfl : ⌊d.val⌋ = n / 10 := Int.floor_eq_iff.mpr ⟨h1, by linarith⟩
  rw [newTime_fin, hd]
  simp only [JSNum.floor, JSNum.toRat?, hfl]

/-- The validation test of `pay` is false on a positive finite amount. -/
theorem guard_fin_pos (q : Dbl) (hq : 0 < q.val) :
    ((JSNum.fin q).isNaN || (JSNum.fin q).le JSNum.zero) = false := by
  simp [JSNum.isNaN, JSNum.le, JSNum.zero, Dbl.zero, hq]

/-- What `pay` does once the amount is a positive finite number. -/
theorem pay_of_fin_pos (now : Nat) (s : Store) (req : PayRequest) (q : Dbl)
    (ha : req.amount = JSNum.fin q) (hq : 0 < q.val) :
    pay now s req = (Response.redirectWaiting req.vehicleNumber,
      { s with vehicles := (upsertVehicle s.vehicles req.vehicleNumber
          (payDoc now (findVehicle s.vehicles req.vehicleNumber) req)) }) := by
  unfold pay
  rw [ha, guard_fin_pos q hq]
  simp

/-- A number that is `> 0` is `Infinity` or a positive finite double. -/
theorem gt_zero_cases (a : JSNum) (h : a.gt JSNum.zero = true) :
    a = JSNum.posInf ∨ ∃ r : Dbl, 0 < r.val ∧ a = JSNum.fin r := by
  cases a with
  | nan => simp [JSNum.gt, JSNum.lt, JSNum.zero] at h
  | posInf => exact Or.inl rfl
  | negInf => simp [JSNum.gt, JSNum.lt, JSNum.zero] at h
  | fin r =>
    right
    refine ⟨r, ?_, rfl⟩
    simpa [JSNum.gt, JSNum.lt, JSNum.zero, Dbl.zero] using h

end SmartCharge

namespace SmartCharge

/-! ## The vehicle ledger: `POST /pay` -/

/-- C1 as stated fails where the double sum is not the exact sum.  With
`reminingtime = 1e17` and a payment of 10 (1 minute) the written record has
`totaltime = reminingtime = 1e17`: the exact sum `1e17 + 1` is not a double
and rounds back to `1e17`. -/
theorem pay_accumulate_absorbs :
    (toDouble 100000000000000000).toRat? = some 100000000000000000 ∧
    (newTime (toDouble 10)).toRat? = some 1 ∧
    (findVehicle
      (pay 100
        ⟨none, [("V1", ⟨"V1", "M1", toDouble 1000000000000000000, toDouble 100000000000000000,
          toDouble 100000000000000000, 10⟩)]⟩
        ⟨"V1", "M1", toDouble 10⟩).2.vehicles "V1").map
      (fun v => (v.totaltime.toRat?, v.reminingtime.toRat?)) =
      some (some 100000000000000000, some 100000000000000000) ∧
    (100000000000000000 : ℚ) ≠ 100000000000000000 + 1 := by
  have hbig : IsDouble (100000000000000000 : ℚ) :=
    ⟨762939453125, 17, by norm_num, by norm_num, by norm_num, by norm_num⟩
  have h10 : IsDouble (10 : ℚ) := by simpa using isDouble_intCast 10 (by norm_num)
  have h1 : IsDouble ((10 : ℚ) / 10) := by simpa using isDouble_intCast 1 (by norm_num)
  have hone : IsDouble (1 : ℚ) := by simpa using isDouble_intCast 1 (by norm_num)
  have hnew : newTime (toDouble 10) = toDouble 1 := by
    rw [newTime_toDouble 10 h10 h1]
    norm_num
  have hround : roundMag (100000000000000000 + 1) = 100000000000000000 := by
    rw [roundMag_eq_of (100000000000000000 + 1) 56 6250000000000000 (by norm_num)
      (by norm_num) (by norm_num) (by norm_num) (by norm_num)]
    norm_num
  have hsum : ((toDouble 100000000000000000).add (toDouble 1)).toRat? =
      some 100000000000000000 := by
    rw [add_toDouble _ _ hbig hone, toDouble_toRat _ (by norm_num) (by rw [hround]; norm_num),
      hround]
  have hgt : (toDouble 100000000000000000).gt JSNum.zero = true := by
    rw [toDouble_of_isDouble _ hbig]
    simp [JSNum.gt, JSNum.lt, JSNum.zero, Dbl.zero]
  refine ⟨?_, ?_, ?_, by norm_num⟩
  · rw [toDouble_of_isDouble _ hbig]
    rfl
  · rw [hnew, toDouble_of_isDouble _ hone]
    rfl
  · rw [pay_of_fin_pos 100 _ _ ⟨10, h10⟩ (toDouble_of_isDouble 10 h10) (by norm_num)]
    simp only [findVehicle_upsertVehicle, findVehicle, if_true, payDoc, hgt, hnew, Option.map_some',
      hsum]

/-- C1, amended (accumulating payment).  When the vehicle has a record whose
`reminingtime` is `> 0` and the amount is a positive finite number, `pay`
redirects and leaves under that vehicle a record with
`totaltime = reminingtime = old reminingtime + Math.floor(amount / 10)`, the
sum and the quotient being those of double arithmetic, with `amount` equal to
this payment alone and a refreshed timestamp.  The sum is the exact one
whenever the exact sum is a double, and the minutes are the exact floor
whenever the exact quotient is a double. -/
theorem pay_accumulates (now : Nat) (s : Store) (req : PayRequest) (q : Dbl) (old : VehicleDoc)
    (ha : req.amount = JSNum.fin q) (hq : 0 < q.val)
    (hold : findVehicle s.vehicles req.vehicleNumber = some old)
    (hrem : old.reminingtime.gt JSNum.zero = true) :
    (pay now s req).1 = Response.redirectWaiting req.vehicleNumber ∧
    findVehicle (pay now s req).2.vehicles req.vehicleNumber =
      some { vehicleNumber := req.vehicleNumber
             vehicleModel := req.vehicleModel
             amount := JSNum.fin q
             totaltime := old.reminingtime.add (newTime (JSNum.fin q))
             reminingtime := old.reminingtime.add (newTime (JSNum.fin q))
             timestamp := now } ∧
    (∀ r t : Dbl, old.reminingtime = JSNum.fin r → newTime (JSNum.fin q) = JSNum.fin t →
      IsDouble (r.val + t.val) →
      (old.reminingtime.add (newTime (JSNum.fin q))).toRat? = some (r.val + t.val)) ∧
    (IsDouble (q.val / 10) →
      (newTime (JSNum.fin q)).toRat? = some ((⌊q.val / 10⌋ : ℤ) : ℚ)) := by
  rw [pay_of_fin_pos now s req q ha hq]
  refine ⟨rfl, ?_, ?_, newTime_exact q⟩
  · simp only [findVehicle_upsertVehicle, hold, payDoc, hrem, if_true, ha]
  · intro r t hr ht hsum
    rw [hr, ht]
    show (toDouble (r.val + t.val)).toRat? = some (r.val + t.val)
    rw [toDouble_of_isDouble _ hsum]
    rfl

/-- C1 at the spec's example: a record with 3 minutes left and a payment of
20 give `totaltime = reminingtime = 5` and `amount = 20`. -/
theorem pay_accumulates_witness :
    findVehicle
      (pay 100 ⟨none, [("V1", ⟨"V1", "M1", toDouble 50, toDouble 5, toDouble 3, 10⟩)]⟩
        ⟨"V1", "M1", toDouble 20⟩).2.vehicles "V1" =
      some ⟨"V1", "M1", toDouble 20, toDouble 5, toDouble 5, 100⟩ := by
  have h20 : IsDouble (20 : ℚ) := by simpa using isDouble_intCast 20 (by norm_num)
  have h2 : IsDouble ((20 : ℚ) / 10) := by
    rw [show (20 : ℚ) / 10 = 2 by norm_num]
    simpa using isDouble_intCast 2 (by norm_num)
  have h3 : IsDouble (3 : ℚ) := by simpa using isDouble_intCast 3 (by norm_num)
  have htwo : IsDouble (2 : ℚ) := by simpa using isDouble_intCast 2 (by norm_num)
  have hgt : (toDouble 3).gt JSNum.zero = true := by
    rw [toDouble_of_isDouble _ h3]
    simp [JSNum.gt, JSNum.lt, JSNum.zero, Dbl.zero]
  have h := pay_accumulates 100
    ⟨none, [("V1", ⟨"V1", "M1", toDouble 50, toDouble 5, toDouble 3, 10⟩)]⟩
    ⟨"V1", "M1", toDouble 20⟩ ⟨20, h20⟩ ⟨"V1", "M1", toDouble 50, toDouble 5, toDouble 3, 10⟩
    (toDouble_of_isDouble 20 h20) (by norm_num) (by simp [findVehicle]) hgt
  have hnew : newTime (toDouble 20) = toDouble 2 := by
    rw [newTime_toDouble 20 h20 h2]
    norm_num
  have hsum : (toDouble 3).add (toDouble 2) = toDouble 5 := by
    rw [add_toDouble _ _ h3 htwo]
    norm_num
  rw [h.2.1, ← toDouble_of_isDouble 20 h20, hnew, hsum]

/-- C2 as stated fails where the double quotient is not the exact quotient.
The amount 100000000000000016 is a double; its tenth, 10000000000000001.6,
rounds to the double 10000000000000002 before `Math.floor` sees it, so the
written record has `totaltime = reminingtime = 10000000000000002`, while the
exact floor of `amount / 10` is 10000000000000001. -/
theorem pay_fresh_rounds_quotient :
    (toDouble 100000000000000016).toRat? = some 100000000000000016 ∧
    (findVehicle
      (pay 100 ⟨none, []⟩ ⟨"V1", "M1", toDouble 100000000000000016⟩).2.vehicles "V1").map
      (fun v => (v.totaltime.toRat?, v.reminingtime.toRat?)) =
      some (some 10000000000000002, some 10000000000000002) ∧
    ⌊(100000000000000016 : ℚ) / 10⌋ = 10000000000000001 := by
  have hamt : IsDouble (100000000000000016 : ℚ) :=
    ⟨6250000000000001, 4, by norm_num, by norm_num, by norm_num, by norm_num⟩
  have hround : roundMag (100000000000000016 / 10) = 10000000000000002 := by
    rw [roundMag_eq_of (100000000000000016 / 10) 53 5000000000000001 (by norm_num)
      (by norm_num) (by norm_num) (by norm_num) (by norm_num)]
    norm_num
  have hquot : toDouble (100000000000000016 / 10) = toDouble 10000000000000002 := by
    have hd : IsDouble (10000000000000002 : ℚ) :=
      ⟨5000000000000001, 1, by norm_num, by norm_num, by norm_num, by norm_num⟩
    rw [toDouble_of_isDouble _ hd]
    unfold toDouble
    have hb : roundMag (100000000000000016 / 10) < 2 ^ 1024 := by rw [hround]; norm_num
    simp only [show (0 : ℚ) ≤ 100000000000000016 / 10 by norm_num, hb, dite_true]
    congr 1
    exact Dbl.ext hround
  have hnew : (newTime (JSNum.fin ⟨100000000000000016, hamt⟩)).toRat? =
      some 10000000000000002 := by
    have hd : IsDouble (10000000000000002 : ℚ) :=
      ⟨5000000000000001, 1, by norm_num, by norm_num, by norm_num, by norm_num⟩
    rw [newTime_fin]
    simp only []
    rw [hquot, toDouble_of_isDouble _ hd]
    simp only [JSNum.floor, JSNum.toRat?]
    norm_num
  refine ⟨?_, ?_, by norm_num [Int.floor_eq_iff]⟩
  · rw [toDouble_of_isDouble _ hamt]
    rfl
  · rw [pay_of_fin_pos 100 _ _ ⟨100000000000000016, hamt⟩ (toDouble_of_isDouble _ hamt)
      (by norm_num)]
    simp only [findVehicle_upsertVehicle, findVehicle, if_true, payDoc, Option.map_some',
      toDouble_of_isDouble _ hamt, hnew]

end SmartCharge

namespace SmartCharge

/-- C2, amended (fresh payment).  When the vehicle has no record, or a record
whose `reminingtime` is 0, and the amount is a positive finite number, `pay`
redirects and leaves under that vehicle the record with
`totaltime = reminingtime = Math.floor(amount / 10)` and nothing of the old
record, the quotient being rounded to the nearest double before the floor.
The minutes are a finite number, not negative; they are the exact floor of
`amount / 10` for every whole-number amount below 2^52 and whenever the exact
quotient is a double: 5 gives 0, 10 gives 1, 25 gives 2, 50 gives 5. -/
theorem pay_fresh (now : Nat) (s : Store) (req : PayRequest) (q : Dbl)
    (ha : req.amount = JSNum.fin q) (hq : 0 < q.val)
    (hfresh : findVehicle s.vehicles req.vehicleNumber = none ∨
      ∃ old, findVehicle s.vehicles req.vehicleNumber = some old ∧
        old.reminingtime = JSNum.zero) :
    ((pay now s req).1 = Response.redirectWaiting req.vehicleNumber ∧
     findVehicle (pay now s req).2.vehicles req.vehicleNumber =
      some { vehicleNumber := req.vehicleNumber
             vehicleModel := req.vehicleModel
             amount := JSNum.fin q
             totaltime := newTime (JSNum.fin q)
             reminingtime := newTime (JSNum.fin q)
             timestamp := now }) ∧
    (∃ t : Dbl, newTime (JSNum.fin q) = JSNum.fin t ∧ 0 ≤ t.val) ∧
    (∀ n : ℤ, q.val = (n : ℚ) → n < 2 ^ 52 →
      (newTime (JSNum.fin q)).toRat? = some ((⌊q.val / 10⌋ : ℤ) : ℚ)) ∧
    (IsDouble (q.val / 10) →
      (newTime (JSNum.fin q)).toRat? = some ((⌊q.val / 10⌋ : ℤ) : ℚ)) ∧
    newTime (toDouble 5) = toDouble 0 ∧ newTime (toDouble 10) = toDouble 1 ∧
    newTime (toDouble 25) = toDouble 2 ∧ newTime (toDouble 50) = toDouble 5 := by
  refine ⟨?_, ?_, ?_, newTime_exact q, ?_, ?_, ?_, ?_⟩
  · rw [pay_of_fin_pos now s req q ha hq]
    refine ⟨rfl, ?_⟩
    rcases hfresh with hnone | ⟨old, hold, hzero⟩
    · simp only [findVehicle_upsertVehicle, hnone, payDoc, ha]
    · simp [findVehicle_upsertVehicle, hold, payDoc, ha, hzero, JSNum.gt, JSNum.lt, JSNum.zero]
  · obtain ⟨t, ht, ht0, _⟩ := newTime_fin_nonneg q (le_of_lt hq)
    exact ⟨t, ht, ht0⟩
  · intro n hn h52
    have hn0 : 0 < n := by
      have : (0 : ℚ) < (n : ℚ) := by rw [← hn]; exact hq
      exact_mod_cast this
    rw [newTime_int q n hn hn0 h52, hn]
    congr 2
    have := Rat.floor_intCast_div_natCast n 10
    simpa using this.symm
  · rw [newTime_toDouble 5 (by simpa using isDouble_intCast 5 (by norm_num))
      ⟨1, -1, by norm_num, by norm_num, by norm_num, by norm_num⟩]
    norm_num [Int.floor_eq_iff]
  · rw [newTime_toDouble 10 (by simpa using isDouble_intCast 10 (by norm_num))
      ⟨1, 0, by norm_num, by norm_num, by norm_num, by norm_num⟩]
    norm_num [Int.floor_eq_iff]
  · rw [newTime_toDouble 25 (by simpa using isDouble_intCast 25 (by norm_num))
      ⟨5, -1, by norm_num, by norm_num, by norm_num, by norm_num⟩]
    norm_num [Int.floor_eq_iff]
  · rw [newTime_toDouble 50 (by simpa using isDouble_intCast 50 (by norm_num))
      ⟨5, 0, by norm_num, by norm_num, by norm_num, by norm_num⟩]
    norm_num [Int.floor_eq_iff]

/-- C2 at the spec's example: a new vehicle "V1" paying 50 gets the record
with `totaltime = reminingtime = 5`. -/
theorem pay_fresh_witness :
    findVehicle (pay 100 ⟨none, []⟩ ⟨"V1", "M1", toDouble 50⟩).2.vehicles "V1" =
      some ⟨"V1", "M1", toDouble 50, toDouble 5, toDouble 5, 100⟩ := by
  have h50 : IsDouble (50 : ℚ) := by simpa using isDouble_intCast 50 (by norm_num)
  have h := pay_fresh 100 ⟨none, []⟩ ⟨"V1", "M1", toDouble 50⟩ ⟨50, h50⟩
    (toDouble_of_isDouble 50 h50) (by norm_num) (Or.inl (by simp [findVehicle]))
  rw [h.1.2, ← toDouble_of_isDouble 50 h50, h.2.2.2.2.2.2.2]

/-- C3 (rejection is atomic).  When the parsed amount is NaN, zero or negative
(minus Infinity included), `pay` answers 400 "Invalid amount" and the store,
vehicle ledger and status document alike, is the one before the request. -/
theorem pay_reject_atomic (now : Nat) (s : Store) (req : PayRequest)
    (hbad : req.amount = JSNum.nan ∨ req.amount = JSNum.negInf ∨
      ∃ q : Dbl, q.val ≤ 0 ∧ req.amount = JSNum.fin q) :
    pay now s req = (Response.invalidAmount, s) := by
  unfold pay
  rcases hbad with h | h | ⟨q, hq, h⟩
  · simp [h, JSNum.isNaN]
  · simp [h, JSNum.isNaN, JSNum.le, JSNum.zero]
  · simp [h, JSNum.isNaN, JSNum.le, JSNum.zero, Dbl.zero, hq]

/-- C3 at a concrete request: amount -5 on a store with one vehicle and a
status document. -/
theorem pay_reject_atomic_witness :
    pay 100 ⟨some ⟨some "Connected", none, none, 1⟩,
        [("V1", ⟨"V1", "M1", toDouble 50, toDouble 5, toDouble 3, 10⟩)]⟩
      ⟨"V1", "M1", toDouble (-5)⟩ =
    (Response.invalidAmount, ⟨some ⟨some "Connected", none, none, 1⟩,
        [("V1", ⟨"V1", "M1", toDouble 50, toDouble 5, toDouble 3, 10⟩)]⟩) := by
  have h5 : IsDouble (-5 : ℚ) := by simpa using isDouble_intCast (-5) (by norm_num)
  exact pay_reject_atomic 100 _ ⟨"V1", "M1", toDouble (-5)⟩
    (Or.inr (Or.inr ⟨⟨-5, h5⟩, by norm_num, toDouble_of_isDouble (-5) h5⟩))

/-- C4 as stated fails at `Infinity`: the amount `+Infinity` is not rejected;
`pay` redirects and writes a record whose times are `Infinity`. -/
theorem pay_accepts_infinity :
    (pay 100 ⟨none, []⟩ ⟨"V1", "M1", JSNum.posInf⟩).1 = Response.redirectWaiting "V1" ∧
    findVehicle (pay 100 ⟨none, []⟩ ⟨"V1", "M1", JSNum.posInf⟩).2.vehicles "V1" =
      some ⟨"V1", "M1", JSNum.posInf, JSNum.posInf, JSNum.posInf, 100⟩ := by
  simp [pay, JSNum.isNaN, JSNum.le, JSNum.zero, findVehicle, upsertVehicle, payDoc, newTime,
    JSNum.divConst, JSNum.floor]

/-- C4, amended.  `pay` answers 400 "Invalid amount" exactly when the parsed
amount is NaN or `<= 0` (zero, negative, minus Infinity), that is, exactly
when it is neither a positive finite number nor `+Infinity`; every positive
amount, `+Infinity` included, is answered by the redirect and the ledger then
holds the written record under the vehicle's number. -/
theorem pay_validation_iff (now : Nat) (s : Store) (req : PayRequest) :
    ((pay now s req).1 = Response.invalidAmount ↔
      (req.amount = JSNum.nan ∨ req.amount = JSNum.negInf ∨
        ∃ q : Dbl, q.val ≤ 0 ∧ req.amount = JSNum.fin q)) ∧
    ((pay now s req).1 = Response.invalidAmount ↔
      ¬ (req.amount = JSNum.posInf ∨ ∃ q : Dbl, 0 < q.val ∧ req.amount = JSNum.fin q)) ∧
    ((req.amount = JSNum.posInf ∨ ∃ q : Dbl, 0 < q.val ∧ req.amount = JSNum.fin q) →
      (pay now s req).1 = Response.redirectWaiting req.vehicleNumber ∧
      findVehicle (pay now s req).2.vehicles req.vehicleNumber =
        some (payDoc now (findVehicle s.vehicles req.vehicleNumber) req)) := by
  obtain ⟨vn, vm, a⟩ := req
  cases a with
  | nan => simp [pay, JSNum.isNaN]
  | posInf => simp [pay, JSNum.isNaN, JSNum.le, JSNum.zero, findVehicle_upsertVehicle]
  | negInf => simp [pay, JSNum.isNaN, JSNum.le, JSNum.zero]
  | fin q =>
    by_cases hq : q.val ≤ 0
    · simp [pay, JSNum.isNaN, JSNum.le, JSNum.zero, Dbl.zero, hq, not_lt.mpr hq]
    · have hq2 : 0 < q.val := not_le.mp hq
      simp [pay, JSNum.isNaN, JSNum.le, JSNum.zero, Dbl.zero, hq, hq2, findVehicle_upsertVehicle]

end SmartCharge

namespace SmartCharge

/-- C10 (paying never costs time).  Whatever the ledger holds for the vehicle
(nothing, or a record with any `reminingtime`, negative ones included) and
for every positive finite amount, after `pay` the vehicle has a record whose
`reminingtime` is `>= 0`, equals its `totaltime`, and is not smaller than the
`reminingtime` the record held before (it is `>=` it unless that was NaN). -/
theorem pay_never_costs_time (now : Nat) (s : Store) (req : PayRequest) (q : Dbl)
    (ha : req.amount = JSNum.fin q) (hq : 0 < q.val) :
    (pay now s req).1 = Response.redirectWaiting req.vehicleNumber ∧
    ∃ v, findVehicle (pay now s req).2.vehicles req.vehicleNumber = some v ∧
      v.reminingtime.ge JSNum.zero = true ∧
      v.reminingtime = v.totaltime ∧
      ∀ old, findVehicle s.vehicles req.vehicleNumber = some old →
        v.reminingtime.lt old.reminingtime = false ∧
        (old.reminingtime.isNaN = false → v.reminingtime.ge old.reminingtime = true) := by
  obtain ⟨t, ht, ht0, _⟩ := newTime_fin_nonneg q (le_of_lt hq)
  rw [pay_of_fin_pos now s req q ha hq]
  refine ⟨rfl, _, findVehicle_upsertVehicle _ _ _, ?_⟩
  cases hfind : findVehicle s.vehicles req.vehicleNumber with
  | none => simp [payDoc, ha, ht, JSNum.ge, JSNum.le, JSNum.zero, Dbl.zero, ht0]
  | some old =>
    obtain ⟨n, m, a, tt, r, ts⟩ := old
    cases r with
    | nan =>
      simp [payDoc, ha, ht, JSNum.ge, JSNum.le, JSNum.gt, JSNum.lt, JSNum.isNaN, JSNum.zero,
        Dbl.zero, ht0]
    | posInf =>
      simp [payDoc, ha, ht, JSNum.ge, JSNum.le, JSNum.gt, JSNum.lt, JSNum.add, JSNum.isNaN,
        JSNum.zero]
    | negInf =>
      simp [payDoc, ha, ht, JSNum.ge, JSNum.le, JSNum.gt, JSNum.lt, JSNum.isNaN, JSNum.zero,
        Dbl.zero, ht0]
    | fin r =>
      by_cases hr : 0 < r.val
      · have hgt : (JSNum.fin r).gt JSNum.zero = true := by
          simp [JSNum.gt, JSNum.lt, JSNum.zero, Dbl.zero, hr]
        have hadd : (JSNum.fin r).add (JSNum.fin t) = toDouble (r.val + t.val) := rfl
        rcases toDouble_ge r (r.val + t.val) (le_of_lt hr) (by linarith) with hinf | ⟨d, hd, hrd⟩
        · simp only [payDoc, ha, ht, hgt, if_true, hadd, hinf]
          simp [JSNum.ge, JSNum.le, JSNum.lt, JSNum.isNaN, JSNum.zero]
        · have hd0 : (0 : ℚ) ≤ d.val := by linarith
          simp only [payDoc, ha, ht, hgt, if_true, hadd, hd]
          simp [JSNum.ge, JSNum.le, JSNum.lt, JSNum.isNaN, JSNum.zero, Dbl.zero, hd0, hrd]
      · have hgt : (JSNum.fin r).gt JSNum.zero = false := by
          simp [JSNum.gt, JSNum.lt, JSNum.zero, Dbl.zero, not_lt.mp hr]
        have h2 : r.val ≤ t.val := by linarith [not_lt.mp hr]
        simp only [payDoc, ha, ht, hgt]
        simp [JSNum.ge, JSNum.le, JSNum.lt, JSNum.isNaN, JSNum.zero, Dbl.zero, ht0, h2]

/-- C10 at a record left at -2 minutes by `update-time`: a payment of 20
gives `reminingtime = totaltime = 2`, which is `>= 0` and not below -2. -/
theorem pay_never_costs_time_witness :
    ∃ v, findVehicle
        (pay 100 ⟨none, [("V1", ⟨"V1", "M1", toDouble 50, toDouble 5, toDouble (-2), 10⟩)]⟩
          ⟨"V1", "M1", toDouble 20⟩).2.vehicles "V1" = some v ∧
      v.reminingtime.ge JSNum.zero = true ∧ v.reminingtime = v.totaltime ∧
      v.reminingtime.lt (toDouble (-2)) = false := by
  have h20 : IsDouble (20 : ℚ) := by simpa using isDouble_intCast 20 (by norm_num)
  obtain ⟨_, v, hv, h0, ht, hold⟩ := pay_never_costs_time 100
    ⟨none, [("V1", ⟨"V1", "M1", toDouble 50, toDouble 5, toDouble (-2), 10⟩)]⟩
    ⟨"V1", "M1", toDouble 20⟩ ⟨20, h20⟩ (toDouble_of_isDouble 20 h20) (by norm_num)
  exact ⟨v, hv, h0, ht,
    (hold ⟨"V1", "M1", toDouble 50, toDouble 5, toDouble (-2), 10⟩ (by simp [findVehicle])).1⟩

/-- C7 evaluated on a reachable ledger.  A first payment of 100 gives
`totaltime = reminingtime = 10`; `update-time` brings `reminingtime` to 3; a
second payment of 20 (2 minutes) then writes `totaltime = 5`, the old
`reminingtime` plus 2, and not the old `totaltime` plus 2, which is 12. -/
theorem pay_totaltime_restarts_from_remaining :
    findVehicle
      (updateTime (pay 1 ⟨none, []⟩ ⟨"V1", "M1", toDouble 100⟩).2 "V1" (toDouble 3)).2.vehicles
      "V1" = some ⟨"V1", "M1", toDouble 100, toDouble 10, toDouble 3, 1⟩ ∧
    findVehicle
      (pay 2 (updateTime (pay 1 ⟨none, []⟩ ⟨"V1", "M1", toDouble 100⟩).2 "V1" (toDouble 3)).2
        ⟨"V1", "M1", toDouble 20⟩).2.vehicles
      "V1" = some ⟨"V1", "M1", toDouble 20, toDouble 5, toDouble 5, 2⟩ ∧
    toDouble 5 ≠ JSNum.add (toDouble 10) (newTime (toDouble 20)) := by
  have h100 : IsDouble (100 : ℚ) := by simpa using isDouble_intCast 100 (by norm_num)
  have h20 : IsDouble (20 : ℚ) := by simpa using isDouble_intCast 20 (by norm_num)
  have h10 : IsDouble (10 : ℚ) := by simpa using isDouble_intCast 10 (by norm_num)
  have h5 : IsDouble (5 : ℚ) := by simpa using isDouble_intCast 5 (by norm_num)
  have h12 : IsDouble (12 : ℚ) := by simpa using isDouble_intCast 12 (by norm_num)
  have h3 : IsDouble (3 : ℚ) := by simpa using isDouble_intCast 3 (by norm_num)
  have h2 : IsDouble (2 : ℚ) := by simpa using isDouble_intCast 2 (by norm_num)
  have hq100 : IsDouble ((100 : ℚ) / 10) := by
    rw [show (100 : ℚ) / 10 = 10 by norm_num]
    exact h10
  have hq20 : IsDouble ((20 : ℚ) / 10) := by
    rw [show (20 : ℚ) / 10 = 2 by norm_num]
    exact h2
  have hnew100 : newTime (toDouble 100) = toDouble 10 := by
    rw [newTime_toDouble 100 h100 hq100]
    norm_num
  have hnew20 : newTime (toDouble 20) = toDouble 2 := by
    rw [newTime_toDouble 20 h20 hq20]
    norm_num
  have hsum : (toDouble 3).add (toDouble 2) = toDouble 5 := by
    rw [add_toDouble _ _ h3 h2]
    norm_num
  have hsum2 : (toDouble 10).add (toDouble 2) = toDouble 12 := by
    rw [add_toDouble _ _ h10 h2]
    norm_num
  have hnan : (toDouble 3).isNaN = false := by
    rw [toDouble_of_isDouble _ h3]
    rfl
  have hle : (toDouble 3).le JSNum.zero = false := by
    rw [toDouble_of_isDouble _ h3]
    simp [JSNum.le, JSNum.zero, Dbl.zero]
  have hgt : (toDouble 3).gt JSNum.zero = true := by
    rw [toDouble_of_isDouble _ h3]
    simp [JSNum.gt, JSNum.lt, JSNum.zero, Dbl.zero]
  have hp1 : pay 1 ⟨none, []⟩ ⟨"V1", "M1", toDouble 100⟩ =
      (Response.redirectWaiting "V1",
        ⟨none, [("V1", ⟨"V1", "M1", toDouble 100, toDouble 10, toDouble 10, 1⟩)]⟩) := by
    rw [pay_of_fin_pos 1 _ _ ⟨100, h100⟩ (toDouble_of_isDouble 100 h100) (by norm_num)]
    simp only [findVehicle, upsertVehicle, payDoc, hnew100]
  have hu : updateTime ⟨none, [("V1", ⟨"V1", "M1", toDouble 100, toDouble 10, toDouble 10, 1⟩)]⟩
      "V1" (toDouble 3) =
      (Response.timeUpdated,
        ⟨none, [("V1", ⟨"V1", "M1", toDouble 100, toDouble 10, toDouble 3, 1⟩)]⟩) := by
    simp [updateTime, hnan, hle, setRemainingTime]
  rw [hp1, hu]
  refine ⟨by simp [findVehicle], ?_, ?_⟩
  · rw [pay_of_fin_pos 2 _ _ ⟨20, h20⟩ (toDouble_of_isDouble 20 h20) (by norm_num)]
    simp only [findVehicle_upsertVehicle, findVehicle, if_true, payDoc, hgt, hnew20, hsum]
  · rw [hnew20, hsum2, toDouble_of_isDouble _ h5, toDouble_of_isDouble _ h12]
    intro h
    have h' := congrArg JSNum.toRat? h
    simp [JSNum.toRat?] at h'

/-! ## The status service -/

/-- The status document is outside the reach of `pay`. -/
theorem pay_status_frame (now : Nat) (s : Store) (req : PayRequest) :
    (pay now s req).2.status = s.status := by
  unfold pay
  split <;> rfl

/-- On an existing status document, `update-time` with `reminingtime <= 0`
sets `status` to "Finished" and keeps the other fields. -/
theorem updateTime_finishes_existing (s : Store) (id : String) (t : JSNum) (d : StatusDoc)
    (hd : s.status = some d) (ht : t.le JSNum.zero = true) :
    (updateTime s id t).2.status = some { d with status := some "Finished" } := by
  have hn : t.isNaN = false := by
    cases t <;> simp [JSNum.le, JSNum.isNaN] at ht ⊢
  simp [updateTime, hn, ht, hd, statusUpdateExisting, StatusDoc.set, finishedUpdate]

/-- With `reminingtime > 0`, `update-time` leaves the status document as it is. -/
theorem updateTime_positive_status_frame (s : Store) (id : String) (t : JSNum)
    (ht : t.gt JSNum.zero = true) : (updateTime s id t).2.status = s.status := by
  rcases gt_zero_cases t ht with h | ⟨r, hr, h⟩
  · simp [updateTime, h, JSNum.le, JSNum.isNaN, JSNum.zero]
  · simp [updateTime, h, JSNum.le, JSNum.isNaN, JSNum.zero, Dbl.zero, not_le.mpr hr]

/-- A `GET /api/status` carrying a non-empty `status`, and no NaN, stamps
`receivedAt`. -/
theorem getStatus_stamps (now : Nat) (s : Store) (q : StatusParams)
    (hq : truthy q.status = true)
    (hv : ∀ x, q.voltage = some x → x.isNaN = false)
    (hcur : ∀ x, q.current = some x → x.isNaN = false) :
    ∃ d, (getStatus now s q).2.status = some d ∧ d.status = q.status ∧ d.receivedAt = now := by
  obtain ⟨st, vo, cu⟩ := q
  have hc : StatusUpdate.castFails
      { status := st, receivedAt := some now, voltage := vo, current := cu } = false := by
    cases vo <;> cases cu <;> simp_all [StatusUpdate.castFails]
  cases st with
  | none => simp [truthy] at hq
  | some x =>
    simp only at hq
    cases hs : s.status <;>
      simp [getStatus, hc, getStatusUpdate, hq, StatusUpdate.nonEmpty, statusUpsert,
        StatusDoc.set, hs]

/-- A `POST /api/status` carrying a non-empty `status`, and no NaN, stamps
`receivedAt`. -/
theorem postStatus_stamps (now : Nat) (s : Store) (b : StatusParams)
    (hb : truthy b.status = true)
    (hv : ∀ x, b.voltage = some x → x.isNaN = false)
    (hcur : ∀ x, b.current = some x → x.isNaN = false) :
    (postStatus now s b).1 = Response.statusSaved ∧
    ∃ d, (postStatus now s b).2.status = some d ∧ d.status = b.status ∧ d.receivedAt = now := by
  obtain ⟨st, vo, cu⟩ := b
  have hc : StatusUpdate.castFails
      { status := st, receivedAt := some now, voltage := vo, current := cu } = false := by
    cases vo <;> cases cu <;> simp_all [StatusUpdate.castFails]
  cases st with
  | none => simp [truthy] at hb
  | some x =>
    simp only at hb
    cases hs : s.status <;>
      simp [postStatus, hb, hc, statusUpsert, StatusDoc.set, hs]

/-- C5 evaluated on a store without a status document.  `update-time` with
`reminingtime = 0` answers success and overwrites the vehicle's
`reminingtime`, but the status update has no `upsert`: no status document
exists afterwards, so no status is "Finished". -/
theorem updateTime_zero_without_status_doc :
    updateTime ⟨none, [("V1", ⟨"V1", "M1", toDouble 50, toDouble 5, toDouble 1, 10⟩)]⟩ "V1"
      (toDouble 0) =
    (Response.timeUpdated,
      ⟨none, [("V1", ⟨"V1", "M1", toDouble 50, toDouble 5, toDouble 0, 10⟩)]⟩) := by
  simp [updateTime, toDouble_zero, JSNum.zero, JSNum.isNaN, JSNum.le, setRemainingTime,
    statusUpdateExisting]

/-- C6 (pure read).  `GET /api/status` with none of `status`, `voltage`,
`current` supplied leaves the store as it is; its answer is the not-found
answer exactly when there is no status document, and otherwise the stored
document's `status`, `voltage` and `current`. -/
theorem getStatus_pure_read (now : Nat) (s : Store) :
    (getStatus now s ⟨none, none, none⟩).2 = s ∧
    ((getStatus now s ⟨none, none, none⟩).1 = Response.statusNotFound ↔ s.status = none) ∧
    (∀ d, s.status = some d →
      (getStatus now s ⟨none, none, none⟩).1 =
        Response.statusFound d.status d.voltage d.current) := by
  cases hs : s.status <;>
    simp [getStatus, getStatusUpdate, truthy, StatusUpdate.nonEmpty, hs]

/-- C8 evaluated on a store whose status document was last stamped at time 1.
`update-time` with `reminingtime = 0` writes `status = "Finished"` and leaves
`receivedAt` at 1: the handler reads no clock and its update object carries no
`receivedAt`. -/
theorem updateTime_keeps_receivedAt :
    finishedUpdate.receivedAt = none ∧
    (updateTime ⟨some ⟨some "Charging", some (toDouble 230), some (toDouble 16), 1⟩, []⟩ "V1"
      (toDouble 0)).2.status =
    some ⟨some "Finished", some (toDouble 230), some (toDouble 16), 1⟩ := by
  simp [updateTime, toDouble_zero, JSNum.zero, JSNum.isNaN, JSNum.le, setRemainingTime,
    statusUpdateExisting, StatusDoc.set, finishedUpdate]

/-- C9 evaluated on a store whose status is "Connected".  A valid payment of
50 is answered by the redirect and the status document is the one before:
`status` is still "Connected", not "Charging". -/
theorem pay_leaves_status_connected :
    (pay 100 ⟨some ⟨some "Connected", none, none, 1⟩, []⟩ ⟨"V1", "M1", toDouble 50⟩).1 =
      Response.redirectWaiting "V1" ∧
    (pay 100 ⟨some ⟨some "Connected", none, none, 1⟩, []⟩ ⟨"V1", "M1", toDouble 50⟩).2.status =
      some ⟨some "Connected", none, none, 1⟩ := by
  have h50 : IsDouble (50 : ℚ) := by simpa using isDouble_intCast 50 (by norm_num)
  rw [pay_of_fin_pos 100 _ _ ⟨50, h50⟩ (toDouble_of_isDouble 50 h50) (by norm_num)]
  exact ⟨rfl, rfl⟩

end SmartCharge
